import Mathlib

/-!
Verification development for the task-manager backend
(`src/backend/src/main.rs`), a single-file actix-web CRUD service over a
SQLite `tasks` table.  Rust strings are modelled by Lean `String`
(sequences of Unicode scalar values); Rust's byte-oriented `str::len` is
modelled by summing UTF-8 widths of the characters, and Rust's
`str::trim` by dropping Unicode-whitespace characters from both ends.
The SQLite store is modelled by an explicit `Store` state record and the
handlers by pure state-passing functions.
-/

namespace TaskManager

/-- UTF-8 byte width of a Unicode scalar value, as used by Rust's
`String::len` (which counts bytes, not characters). -/
def utf8Width (c : Char) : Nat :=
  if c.toNat < 0x80 then 1
  else if c.toNat < 0x800 then 2
  else if c.toNat < 0x10000 then 3
  else 4

/-- Model of Rust `str::len`: the UTF-8 byte length of the string. -/
def rlen (s : String) : Nat := (s.data.map utf8Width).sum

/-- Model of Rust `str::is_empty` (no bytes iff no characters). -/
def strEmpty (s : String) : Bool := s.data.isEmpty

/-- Unicode `White_Space` property, the character class trimmed by Rust's
`str::trim` (via `char::is_whitespace`). -/
def rustWhitespace (c : Char) : Bool :=
  c.toNat ∈ ([0x09, 0x0A, 0x0B, 0x0C, 0x0D, 0x20, 0x85, 0xA0, 0x1680,
    0x2000, 0x2001, 0x2002, 0x2003, 0x2004, 0x2005, 0x2006, 0x2007,
    0x2008, 0x2009, 0x200A, 0x2028, 0x2029, 0x202F, 0x205F, 0x3000] : List Nat)

/-- Trim Unicode whitespace from both ends of a character list. -/
def trimList (l : List Char) : List Char :=
  ((l.dropWhile rustWhitespace).reverse.dropWhile rustWhitespace).reverse

/-- Model of Rust `str::trim`. -/
def rtrim (s : String) : String := ⟨trimList s.data⟩

/-- The fixed status enumeration `VALID_STATUSES` from the source. -/
def VALID_STATUSES : List String := ["todo", "in_progress", "done", "blocked"]

/-- Wire/in-memory representation of a task (struct `Task` in the source).
`id` models the `i64` identity; `in_sprint` the boolean flag; `notes` the
optional notes string. -/
structure Task where
  id : Int
  title : String
  description : String
  tags : List String
  deadline : Option String
  project : String
  assignee : String
  status : String
  in_sprint : Bool
  notes : Option String
deriving DecidableEq

/-- Translation of `validate_task` from the source: returns `none` for a
valid task or the first violated constraint's message, checking in order
title emptiness (after trim), title byte length, description byte length,
tag count, each tag's byte length, status membership, project emptiness
(after trim), assignee emptiness (after trim), notes byte length. -/
def validate_task (t : Task) : Option String :=
  if strEmpty (rtrim t.title) then some "title must not be empty"
  else if 500 < rlen t.title then some "title must be at most 500 characters"
  else if 10000 < rlen t.description then some "description must be at most 10000 characters"
  else if 50 < t.tags.length then some "tags must be at most 50 items"
  else if t.tags.any (fun tag => 100 < rlen tag) then some "each tag must be at most 100 characters"
  else if ¬ (VALID_STATUSES.contains t.status) then some "status must be one of: todo, in_progress, done, blocked"
  else if strEmpty (rtrim t.project) then some "project must not be empty"
  else if strEmpty (rtrim t.assignee) then some "assignee must not be empty"
  else if 2000 < rlen (t.notes.getD "") then some "notes must be at most 2000 characters"
  else none

/-- Specification-side formulation of validation (from the spec's words):
the ordered list of violated-constraint messages, one entry per violated
constraint, in the documented precedence order.  Emptiness of
title/project/assignee is judged after trimming; every length limit is
judged against the untrimmed value. -/
def violation_messages (t : Task) : List String :=
  (if strEmpty (rtrim t.title) then ["title must not be empty"] else []) ++
  (if 500 < rlen t.title then ["title must be at most 500 characters"] else []) ++
  (if 10000 < rlen t.description then ["description must be at most 10000 characters"] else []) ++
  (if 50 < t.tags.length then ["tags must be at most 50 items"] else []) ++
  (if t.tags.any (fun tag => 100 < rlen tag) then ["each tag must be at most 100 characters"] else []) ++
  (if ¬ (VALID_STATUSES.contains t.status) then ["status must be one of: todo, in_progress, done, blocked"] else []) ++
  (if strEmpty (rtrim t.project) then ["project must not be empty"] else []) ++
  (if strEmpty (rtrim t.assignee) then ["assignee must not be empty"] else []) ++
  (if 2000 < rlen (t.notes.getD "") then ["notes must be at most 2000 characters"] else [])

/-- Specification-side validation: the first violated constraint in the
precedence order, or nothing when the task is valid. -/
def first_violation (t : Task) : Option String :=
  (violation_messages t).head?

/-- A minimal valid task used to exercise the validator and handlers. -/
def demo_task : Task :=
  { id := 0, title := "A", description := "", tags := [], deadline := none,
    project := "General", assignee := "Unassigned", status := "todo", in_sprint := false,
    notes := none }

/-- Lower-case hexadecimal digit character, as used by serde_json's
`\u00XX` escapes. -/
def hexDigitChar (n : Nat) : Char :=
  if n < 10 then Char.ofNat (48 + n) else Char.ofNat (87 + n)

/-- Model of serde_json's string-character escaping when serializing a
`Vec<String>`: quote and backslash are escaped, the named control
escapes `\b \f \n \r \t` are used, any other control character below
`0x20` becomes `\u00XX` (lower-case hex), and every other character is
emitted verbatim. -/
def esc_char (c : Char) : List Char :=
  if c = '"' then ['\\', '"']
  else if c = '\\' then ['\\', '\\']
  else if c = '\x08' then ['\\', 'b']
  else if c = '\x0c' then ['\\', 'f']
  else if c = '\n' then ['\\', 'n']
  else if c = '\r' then ['\\', 'r']
  else if c = '\t' then ['\\', 't']
  else if c.toNat < 0x20 then
    ['\\', 'u', '0', '0', hexDigitChar (c.toNat / 16), hexDigitChar (c.toNat % 16)]
  else [c]

/-- JSON encoding of one string, quotes included. -/
def encode_string (s : String) : List Char :=
  '"' :: ((s.data.map esc_char).flatten ++ ['"'])

/-- Model of `serde_json::to_string` on a `Vec<String>`: the canonical
whitespace-free JSON array text this program stores in the `tags`
column. -/
def tags_to_json (tags : List String) : String :=
  ⟨'[' :: (List.intercalate [','] (tags.map encode_string) ++ [']'])⟩

/-- Value of a hexadecimal digit character, or nothing. -/
def hexVal (c : Char) : Option Nat :=
  if '0' ≤ c ∧ c ≤ '9' then some (c.toNat - 48)
  else if 'a' ≤ c ∧ c ≤ 'f' then some (c.toNat - 87)
  else if 'A' ≤ c ∧ c ≤ 'F' then some (c.toNat - 55)
  else none

/-- The single-character JSON escapes accepted after a backslash. -/
def simple_escape (c : Char) : Option Char :=
  if c = '"' then some '"'
  else if c = '\\' then some '\\'
  else if c = '/' then some '/'
  else if c = 'b' then some '\x08'
  else if c = 'f' then some '\x0c'
  else if c = 'n' then some '\n'
  else if c = 'r' then some '\r'
  else if c = 't' then some '\t'
  else none

/-- Model of serde_json's string-body parsing (everything after an
opening quote, up to and including the closing quote): returns the
decoded characters and the remaining input.  `\uXXXX` escapes are
accepted for valid (non-surrogate) scalar values. -/
def parse_string_body : List Char → Option (List Char × List Char)
  | [] => none
  | c :: rest =>
    if c = '"' then some ([], rest)
    else if c = '\\' then
      match rest with
      | 'u' :: h1 :: h2 :: h3 :: h4 :: rest2 =>
        match hexVal h1, hexVal h2, hexVal h3, hexVal h4 with
        | some a, some b, some c2, some d =>
          let n := ((a * 16 + b) * 16 + c2) * 16 + d
          if n.isValidChar then
            (parse_string_body rest2).map (fun p => (Char.ofNat n :: p.1, p.2))
          else none
        | _, _, _, _ => none
      | e :: rest1 =>
        match simple_escape e with
        | some d => (parse_string_body rest1).map (fun p => (d :: p.1, p.2))
        | none => none
      | [] => none
    else (parse_string_body rest).map (fun p => (c :: p.1, p.2))

/-- Item loop of the array parser, fuelled by the input length: parses
`"s" ("," "s")* "]"` and returns the decoded strings and the remaining
input after the closing bracket. -/
def parse_items : Nat → List Char → Option (List (List Char) × List Char)
  | 0, _ => none
  | n + 1, '"' :: rest =>
    (match parse_string_body rest with
     | some (s, ',' :: rem) => (parse_items n rem).map (fun p => (s :: p.1, p.2))
     | some (s, ']' :: rem) => some ([s], rem)
     | _ => none)
  | _ + 1, _ => none

/-- Model of `serde_json::from_str::<Vec<String>>` on the canonical
whitespace-free array text this program stores: an empty array `[]` or a
comma-separated list of JSON strings in brackets, with nothing left
over. -/
def parse_tags (s : String) : Option (List String) :=
  match s.data with
  | '[' :: rest =>
    if rest = [']'] then some []
    else
      (match parse_items rest.length rest with
       | some (items, rem) => if rem.isEmpty then some (items.map fun l => ⟨l⟩) else none
       | none => none)
  | _ => none

/-- Database row of the `tasks` table (struct `TaskRow` in the source):
`tags` is the JSON-encoded text column, `in_sprint` the `i32` column,
`notes` the nullable text column. -/
structure TaskRow where
  id : Int
  title : String
  description : String
  tags : String
  deadline : Option String
  project : String
  assignee : String
  status : String
  in_sprint : Int
  notes : Option String
deriving DecidableEq

/-- Translation of `TaskRow::into_task`: an empty `tags` column decodes
to the empty tag list without parsing, otherwise the JSON text is
parsed (a parse failure makes the conversion fail); `in_sprint` becomes
the flag `!= 0`; empty stored notes become an absent notes field. -/
def TaskRow.into_task (r : TaskRow) : Option Task :=
  match (if strEmpty r.tags then some [] else parse_tags r.tags) with
  | none => none
  | some tags =>
    some { id := r.id, title := r.title, description := r.description,
           tags := tags, deadline := r.deadline, project := r.project,
           assignee := r.assignee, status := r.status,
           in_sprint := r.in_sprint != 0,
           notes := r.notes.filter (fun s => !(strEmpty s)) }

/-- State of the SQLite store: the `tasks` rows in insertion order, the
next `AUTOINCREMENT` identity, and the name columns of the `projects`
and `assignees` lookup tables. -/
structure Store where
  nextId : Int
  rows : List TaskRow
  projects : List String
  assignees : List String
deriving DecidableEq

/-- Translation of `project_exists`: a row of `projects` has this name. -/
def project_exists (st : Store) (name : String) : Bool :=
  st.projects.contains name

/-- Translation of `assignee_exists`. -/
def assignee_exists (st : Store) (name : String) : Bool :=
  st.assignees.contains name

/-- HTTP-level outcome of a handler, carrying the JSON body where one is
produced. -/
inductive Resp where
  | badRequest (msg : String)
  | notFound (msg : String)
  | created (t : Task)
  | ok (t : Task)
  | internalError
deriving DecidableEq

/-- The field overrides `create_task` performs on the incoming task
before validating: the client id is overwritten with 0, an empty or
invalid status is forced to `todo`, and `in_sprint` is forced to
false. -/
def force_create_fields (task : Task) : Task :=
  let t1 : Task := { task with id := 0 }
  let t2 : Task :=
    if strEmpty t1.status || !(VALID_STATUSES.contains t1.status) then
      { t1 with status := "todo" }
    else t1
  { t2 with in_sprint := false }

/-- The row `create_task` inserts: the store-assigned identity, the JSON
encoding of the tags as text, the `in_sprint` column bound to the
literal 0, and the trimmed notes bound with empty stored as the empty
string. -/
def create_row (st : Store) (t3 : Task) : TaskRow :=
  { id := st.nextId, title := t3.title, description := t3.description,
    tags := tags_to_json t3.tags, deadline := t3.deadline, project := t3.project,
    assignee := t3.assignee, status := t3.status, in_sprint := 0,
    notes := some ((if strEmpty (rtrim (t3.notes.getD "")) then none
                    else some (rtrim (t3.notes.getD ""))).getD "") }

/-- Translation of the `create_task` handler: the client fields are
forced (`force_create_fields`), the task is validated, project and
assignee existence are checked, the row is inserted, and the
(pre-storage) task with the new identity is returned with created
semantics. -/
def create_task (st : Store) (task : Task) : Store × Resp :=
  let t3 := force_create_fields task
  match validate_task t3 with
  | some msg => (st, .badRequest msg)
  | none =>
    if !(project_exists st t3.project) then
      (st, .badRequest "project does not exist")
    else if !(assignee_exists st t3.assignee) then
      (st, .badRequest "assignee does not exist")
    else
      ({ st with nextId := st.nextId + 1, rows := st.rows ++ [create_row st t3] },
       .created { t3 with id := st.nextId })

/-- The row rewrite performed by `UPDATE tasks SET status=? WHERE id=?`. -/
def set_status (id : Int) (s : String) (r : TaskRow) : TaskRow :=
  if r.id == id then { r with status := s } else r

/-- Translation of the `update_task_status` handler: a status outside the
fixed enumeration is rejected as `invalid status` before any write; an
in-enumeration status is applied to the row with the given id; if no row
was affected the handler reports `task not found`; otherwise the updated
row is re-fetched and decoded into the response task (a decode failure is
an internal error). -/
def update_task_status (st : Store) (id : Int) (s : String) : Store × Resp :=
  if !(VALID_STATUSES.contains s) then
    (st, .badRequest "invalid status")
  else
    let rows2 := st.rows.map (set_status id s)
    let affected := st.rows.countP (fun r => r.id == id)
    let st2 : Store := { st with rows := rows2 }
    if affected == 0 then
      (st2, .notFound "task not found")
    else
      match rows2.find? (fun r => r.id == id) with
      | none => (st2, .internalError)
      | some r =>
        match r.into_task with
        | some t => (st2, .ok t)
        | none => (st2, .internalError)

/-- Untyped JSON value, the shape `serde_json::Value` takes for the
parsed AI response (numbers are irrelevant to the field pulls this
program performs and are collapsed to one constructor). -/
inductive JVal where
  | null
  | bool (b : Bool)
  | num (n : Int)
  | str (s : String)
  | arr (xs : List JVal)
  | obj (fields : List (String × JVal))

/-- Model of `serde_json::Value::get` on an object: the value of the
first field with this key, nothing on a non-object. -/
def JVal.get (v : JVal) (key : String) : Option JVal :=
  match v with
  | .obj fields => (fields.find? (fun p => p.1 == key)).map (fun p => p.2)
  | _ => none

/-- Model of `Value::as_str`. -/
def JVal.asStr (v : JVal) : Option String :=
  match v with
  | .str s => some s
  | _ => none

/-- Model of `Value::as_array`. -/
def JVal.asArr (v : JVal) : Option (List JVal) :=
  match v with
  | .arr xs => some xs
  | _ => none

/-- Per-item materialization of the AI generation loop in
`generate_tasks_from_ai`: `title` defaults to "Untitled", `description`
to the empty string; `tags` keeps the string elements of an array value
and defaults to `["ai-generated"]` when missing or not an array;
`deadline` drops empty strings; `project`/`assignee` default to
"General"/"Unassigned" and fall back to those defaults when the named
row does not exist; `status` falls back to `todo` when not in the fixed
enumeration; the candidate has id 0, `in_sprint` false and no notes. -/
def materialize_item (projects assignees : List String) (item : JVal) : Task :=
  let title := ((item.get "title").bind JVal.asStr).getD "Untitled"
  let description := ((item.get "description").bind JVal.asStr).getD ""
  let tags : List String :=
    match (item.get "tags").bind JVal.asArr with
    | some arr => arr.filterMap JVal.asStr
    | none => ["ai-generated"]
  let deadline := ((item.get "deadline").bind JVal.asStr).filter (fun s => !(strEmpty s))
  let project_raw := ((item.get "project").bind JVal.asStr).getD "General"
  let assignee_raw := ((item.get "assignee").bind JVal.asStr).getD "Unassigned"
  let project := if projects.contains project_raw then project_raw else "General"
  let assignee := if assignees.contains assignee_raw then assignee_raw else "Unassigned"
  let status :=
    (((item.get "status").bind JVal.asStr).filter (fun s => VALID_STATUSES.contains s)).getD "todo"
  { id := 0, title := title, description := description, tags := tags,
    deadline := deadline, project := project, assignee := assignee,
    status := status, in_sprint := false, notes := none }

/-- The row inserted for an accepted AI-generated task: tags JSON
encoded, `in_sprint` column 0, notes column the empty string. -/
def gen_row (t : Task) : TaskRow :=
  { id := t.id, title := t.title, description := t.description,
    tags := tags_to_json t.tags, deadline := t.deadline,
    project := t.project, assignee := t.assignee, status := t.status,
    in_sprint := 0, notes := some "" }

/-- Translation of the persistence loop of `generate_tasks_from_ai`
after the response has been parsed into an array of JSON values: each
item is materialized against the current lookup tables, validated with
`validate_task`, silently dropped on failure, and inserted with the
store-assigned identity on success; the accepted tasks are accumulated
in order. -/
def generate_from_items (st : Store) : List JVal → Store × List Task
  | [] => (st, [])
  | item :: rest =>
    let t := materialize_item st.projects st.assignees item
    if (validate_task t).isNone then
      let t2 : Task := { t with id := st.nextId }
      let st2 : Store :=
        { st with nextId := st.nextId + 1, rows := st.rows ++ [gen_row t2] }
      let p := generate_from_items st2 rest
      (p.1, t2 :: p.2)
    else
      generate_from_items st rest

/-- Specification-side helper: assign consecutive store identities
starting at `n` to a list of accepted tasks. -/
def assign_ids (n : Int) : List Task → List Task
  | [] => []
  | t :: ts => { t with id := n } :: assign_ids (n + 1) ts

/-- Specification-side helper: the accepted candidates of an AI batch,
in order - every item materialized against the given lookup tables and
kept exactly when it passes the same validation as manual creation. -/
def accepted_items (projects assignees : List String) (items : List JVal) : List Task :=
  (items.map (materialize_item projects assignees)).filter
    (fun t => (validate_task t).isNone)

/-- First index (in characters) at which `pat` occurs in the remaining
input, starting the count at `i`. -/
def findSubAux (pat : List Char) : List Char → Nat → Option Nat
  | [], i => if pat.isPrefixOf ([] : List Char) then some i else none
  | c :: tl, i => if pat.isPrefixOf (c :: tl) then some i else findSubAux pat tl (i + 1)

/-- Model of Rust `str::find` for a literal pattern: the first index at
which the pattern occurs.  The source manipulates byte indices; every
pattern involved is ASCII, so character indices are an equivalent
relabelling of the same positions. -/
def findSub (l pat : List Char) : Option Nat := findSubAux pat l 0

/-- The characters of the plain code-fence token. -/
def fenceTok : List Char := ['`', '`', '`']

/-- The characters of the json-tagged code-fence token. -/
def jsonFenceTok : List Char := ['`', '`', '`', 'j', 's', 'o', 'n']

/-- The bracket-or-nothing tail of `extract_json_from_response`: with no
usable fence, the trimmed text is returned verbatim when it starts with
a bracket, otherwise nothing. -/
def bracket_branch (t : List Char) : Option String :=
  if t.head? = some '[' then some ⟨t⟩ else none

/-- The plain-fence branch of `extract_json_from_response`: the first
occurrence of the fence token, content starting after the first newline
at or beyond it (or directly after the token when the text has no later
newline), up to the next fence token, trimmed; falling through to the
bracket check when no complete fence is found. -/
def plain_branch (t : List Char) : Option String :=
  match findSub t fenceTok with
  | some start =>
    let content_start :=
      match findSub (t.drop start) ['\n'] with
      | some i => start + i + 1
      | none => start + 3
    (match findSub (t.drop content_start) fenceTok with
     | some e => some ⟨trimList ((t.drop content_start).take e)⟩
     | none => bracket_branch t)
  | none => bracket_branch t

/-- Translation of `extract_json_from_response`: the input is trimmed; a
block introduced by the json-tagged fence is preferred, then any plain
fenced block, then the raw text when it starts with `[`; otherwise
nothing.  An opening fence without a closing one falls through to the
next alternative, exactly as the source's early returns do. -/
def extract_json_from_response (text : String) : Option String :=
  let t := trimList text.data
  match findSub t jsonFenceTok with
  | some start =>
    let content_start :=
      match findSub (t.drop start) ['\n'] with
      | some i => start + i + 1
      | none => start + 7
    (match findSub (t.drop content_start) fenceTok with
     | some e => some ⟨trimList ((t.drop content_start).take e)⟩
     | none => plain_branch t)
  | none => plain_branch t

/-- Character-list prefix test (the source compares origin bytes with
`starts_with`; on these ASCII patterns the character sequence is an
equivalent view of the byte sequence). -/
def lstarts (l : List Char) (pat : List Char) : Bool := pat.isPrefixOf l

/-- Translation of the CORS configuration in `main`: the two exact
`allowed_origin` entries together with the `allowed_origin_fn`
predicate, which accepts origins starting with `http://localhost`,
`http://127.0.0.1`, `http://172.`, `https://172.`, `http://192.168.` or
`https://192.168.`. -/
def cors_allowed (origin : List Char) : Bool :=
  origin == "http://localhost:3000".data ||
  origin == "http://127.0.0.1:3000".data ||
  lstarts origin "http://localhost".data ||
  lstarts origin "http://127.0.0.1".data ||
  lstarts origin "http://172.".data ||
  lstarts origin "https://172.".data ||
  lstarts origin "http://192.168.".data ||
  lstarts origin "https://192.168.".data

/-- Claim-side CORS predicate, following the claim's words: the origin
is a localhost/loopback origin or a private-network (172.x, 192.168.x)
origin, over either http or https. -/
def claim_cors_allowed (origin : List Char) : Bool :=
  (["http", "https"].any fun scheme =>
    (["localhost", "127.0.0.1", "172.", "192.168."].any fun host =>
      lstarts origin (scheme ++ "://" ++ host).data))

/-- Specification-side normalization of the notes field as the store
performs it: trim, and an empty result is stored as absent. -/
def normalize_notes (n : Option String) : Option String :=
  let s := rtrim (n.getD "")
  if strEmpty s then none else some s

/-- Concrete input used to witness the handler theorems. -/
def demo_store : Store :=
  { nextId := 1, rows := [], projects := ["General"], assignees := ["Unassigned"] }


/-- Concrete input used to witness the handler theorems. -/
def c2_input : Task :=
  { id := 99, title := "Buy milk", description := "", tags := ["a"], deadline := none,
    project := "General", assignee := "Unassigned", status := "bogus", in_sprint := true,
    notes := none }


/-- Concrete input used to witness the handler theorems. -/
def c2_resp : Task :=
  { id := 1, title := "Buy milk", description := "", tags := ["a"], deadline := none,
    project := "General", assignee := "Unassigned", status := "todo", in_sprint := false,
    notes := none }


/-- Concrete input used to witness the handler theorems. -/
def c5_input : Task :=
  { id := 0, title := "Call bank", description := "", tags := [], deadline := none,
    project := "General", assignee := "Unassigned", status := "todo", in_sprint := false,
    notes := some " " }


/-- Concrete input used to witness the handler theorems. -/
def c8_input : Task :=
  { id := 0, title := "Tagged", description := "", tags := ["a", "b"], deadline := none,
    project := "General", assignee := "Unassigned", status := "todo", in_sprint := false,
    notes := none }

/-- Concrete input used to witness the handler theorems. -/
def c3_row : TaskRow :=
  { id := 1, title := "Task one", description := "", tags := "[\"a\"]", deadline := none,
    project := "General", assignee := "Unassigned", status := "todo", in_sprint := 0,
    notes := some "" }


/-- Concrete input used to witness the handler theorems. -/
def c3_store : Store :=
  { nextId := 2, rows := [c3_row], projects := ["General"], assignees := ["Unassigned"] }


/-- Concrete input used to witness the handler theorems. -/
def c3_done_task : Task :=
  { id := 1, title := "Task one", description := "", tags := ["a"], deadline := none,
    project := "General", assignee := "Unassigned", status := "done", in_sprint := false,
    notes := none }

lemma hexVal_hexDigitChar (n : Nat) (h : n < 16) : hexVal (hexDigitChar n) = some n := by
  interval_cases n <;> decide

lemma psb_quote (rest : List Char) : parse_string_body ('"' :: rest) = some ([], rest) := by
  rw [parse_string_body.eq_def]; simp

lemma psb_escape (e : Char) (d : Char) (rest : List Char) (hu : ¬ e = 'u')
    (h : simple_escape e = some d) :
    parse_string_body ('\\' :: e :: rest) =
      (parse_string_body rest).map (fun p => (d :: p.1, p.2)) := by
  rw [parse_string_body.eq_def]
  cases rest with
  | nil => simp [hu, h]
  | cons a tl =>
    cases tl with
    | nil => simp [hu, h]
    | cons b tl2 =>
      cases tl2 with
      | nil => simp [hu, h]
      | cons c3 tl3 =>
        cases tl3 with
        | nil => simp [hu, h]
        | cons c4 tl4 => simp [hu, h]

lemma psb_plain (c : Char) (rest : List Char) (h1 : ¬ c = '"') (h2 : ¬ c = '\\') :
    parse_string_body (c :: rest) = (parse_string_body rest).map (fun p => (c :: p.1, p.2)) := by
  rw [parse_string_body.eq_def]
  simp [h1, h2]

lemma parse_string_body_encode (l : List Char) (rest : List Char) :
    parse_string_body ((l.map esc_char).flatten ++ '"' :: rest) = some (l, rest) := by
  induction l with
  | nil => simp [psb_quote]
  | cons c tl ih =>
    rw [List.map_cons, List.flatten_cons, List.append_assoc]
    by_cases h1 : c = '"'
    · have hc : esc_char c = ['\\', '"'] := by simp [esc_char, h1]
      rw [hc]; subst h1
      rw [List.cons_append, List.cons_append, List.nil_append,
        psb_escape '"' '"' _ (by decide) (by decide), ih]
      rfl
    · by_cases h2 : c = '\\'
      · have hc : esc_char c = ['\\', '\\'] := by simp [esc_char, h1, h2]
        rw [hc]; subst h2
        rw [List.cons_append, List.cons_append, List.nil_append,
          psb_escape '\\' '\\' _ (by decide) (by decide), ih]
        rfl
      · by_cases h3 : c = '\x08'
        · have hc : esc_char c = ['\\', 'b'] := by simp [esc_char, h1, h2, h3]
          rw [hc]; subst h3
          rw [List.cons_append, List.cons_append, List.nil_append,
            psb_escape 'b' '\x08' _ (by decide) (by decide), ih]
          rfl
        · by_cases h4 : c = '\x0c'
          · have hc : esc_char c = ['\\', 'f'] := by simp [esc_char, h1, h2, h3, h4]
            rw [hc]; subst h4
            rw [List.cons_append, List.cons_append, List.nil_append,
              psb_escape 'f' '\x0c' _ (by decide) (by decide), ih]
            rfl
          · by_cases h5 : c = '\n'
            · have hc : esc_char c = ['\\', 'n'] := by simp [esc_char, h1, h2, h3, h4, h5]
              rw [hc]; subst h5
              rw [List.cons_append, List.cons_append, List.nil_append,
                psb_escape 'n' '\n' _ (by decide) (by decide), ih]
              rfl
            · by_cases h6 : c = '\r'
              · have hc : esc_char c = ['\\', 'r'] := by simp [esc_char, h1, h2, h3, h4, h5, h6]
                rw [hc]; subst h6
                rw [List.cons_append, List.cons_append, List.nil_append,
                  psb_escape 'r' '\r' _ (by decide) (by decide), ih]
                rfl
              · by_cases h7 : c = '\t'
                · have hc : esc_char c = ['\\', 't'] := by simp [esc_char, h1, h2, h3, h4, h5, h6, h7]
                  rw [hc]; subst h7
                  rw [List.cons_append, List.cons_append, List.nil_append,
                    psb_escape 't' '\t' _ (by decide) (by decide), ih]
                  rfl
                · by_cases h8 : c.toNat < 0x20
                  · have hc : esc_char c =
                        ['\\', 'u', '0', '0', hexDigitChar (c.toNat / 16), hexDigitChar (c.toNat % 16)] := by
                      simp [esc_char, h1, h2, h3, h4, h5, h6, h7, h8]
                    rw [hc]
                    have e1 : hexVal '0' = some 0 := by decide
                    have e2 : hexVal (hexDigitChar (c.toNat / 16)) = some (c.toNat / 16) :=
                      hexVal_hexDigitChar _ (by omega)
                    have e3 : hexVal (hexDigitChar (c.toNat % 16)) = some (c.toNat % 16) :=
                      hexVal_hexDigitChar _ (Nat.mod_lt _ (by norm_num))
                    rw [parse_string_body.eq_def]
                    simp only [List.cons_append, List.nil_append]
                    simp [e1, e2, e3, ih]
                    have hn2 : c.toNat / 16 * 16 + c.toNat % 16 = c.toNat := by omega
                    rw [hn2, Char.ofNat_toNat]
                    exact ⟨Or.inl (by omega), rfl⟩
                  · have hc : esc_char c = [c] := by
                      simp [esc_char, h1, h2, h3, h4, h5, h6, h7, h8]
                    rw [hc]
                    rw [List.cons_append, List.nil_append, psb_plain c _ h1 h2, ih]
                    rfl

lemma intercalate_one (sep : List Char) (a : List Char) :
    List.intercalate sep [a] = a := by
  simp [List.intercalate, List.intersperse]

lemma intercalate_two (sep a b : List Char) (rest : List (List Char)) :
    List.intercalate sep (a :: b :: rest) = a ++ sep ++ List.intercalate sep (b :: rest) := by
  simp [List.intercalate, List.intersperse_cons_cons, List.append_assoc]

lemma encode_string_length (s : String) : 2 ≤ (encode_string s).length := by
  simp [encode_string]

lemma body_length (tags : List String) (h : tags ≠ []) :
    tags.length ≤ (List.intercalate [','] (tags.map encode_string)).length := by
  induction tags with
  | nil => cases h rfl
  | cons t ts ih =>
    cases ts with
    | nil =>
      have := encode_string_length t
      simp only [List.map_cons, List.map_nil, intercalate_one, List.length_cons,
        List.length_nil]
      omega
    | cons b rest =>
      rw [List.map_cons, List.map_cons, intercalate_two]
      have h1 := encode_string_length t
      have h2 := ih (by simp)
      rw [List.map_cons] at h2
      simp only [List.length_append, List.length_cons] at h2 ⊢
      omega

lemma parse_items_encode (tags : List String) :
    ∀ n : Nat, tags ≠ [] → tags.length ≤ n →
    parse_items n (List.intercalate [','] (tags.map encode_string) ++ [']']) =
      some (tags.map String.data, []) := by
  induction tags with
  | nil => intro n h; cases h rfl
  | cons t ts ih =>
    intro n _ hlen
    cases n with
    | zero => simp at hlen
    | succ m =>
      cases ts with
      | nil =>
        rw [List.map_cons, List.map_nil, intercalate_one, encode_string,
          List.cons_append, List.append_assoc]
        rw [show (['"'] ++ [']'] : List Char) = '"' :: [']'] from rfl]
        rw [parse_items.eq_def]
        simp only []
        rw [parse_string_body_encode t.data [']']]
        rfl
      | cons b rest =>
        rw [List.map_cons, List.map_cons, intercalate_two, encode_string]
        have hsh : ((('"' :: ((t.data.map esc_char).flatten ++ ['"'])) ++ [',']) ++
            List.intercalate [','] (encode_string b :: rest.map encode_string)) ++ [']'] =
            '"' :: ((t.data.map esc_char).flatten ++ '"' ::
              (',' :: (List.intercalate [','] (encode_string b :: rest.map encode_string) ++ [']']))) := by
          simp [List.append_assoc]
        rw [hsh, parse_items.eq_def]
        simp only []
        rw [parse_string_body_encode]
        have hrec := ih m (by simp) (by simp at hlen ⊢; omega)
        rw [List.map_cons] at hrec
        simp only [hrec]
        rfl

lemma parse_tags_mk_bracket (rest : List Char) :
    parse_tags ⟨'[' :: rest⟩ =
      (if rest = [']'] then some [] else
        match parse_items rest.length rest with
        | some (items, rem) => if rem.isEmpty then some (items.map fun l => (⟨l⟩ : String)) else none
        | none => none) := rfl

lemma intercalate_encode_cons (t : String) (ts : List String) :
    ∃ Y, List.intercalate [','] ((t :: ts).map encode_string) = '"' :: Y := by
  cases ts with
  | nil =>
    exact ⟨(t.data.map esc_char).flatten ++ ['"'], by
      rw [List.map_cons, List.map_nil, intercalate_one, encode_string]⟩
  | cons b rest =>
    refine ⟨(((t.data.map esc_char).flatten ++ ['"']) ++ [',']) ++
      List.intercalate [','] ((b :: rest).map encode_string), ?_⟩
    rw [List.map_cons, List.map_cons, intercalate_two, encode_string]
    simp [List.append_assoc]

/-- Round trip of the tags column: decoding the stored JSON text of any
tag list yields the same list. -/
lemma parse_tags_tags_to_json (tags : List String) :
    parse_tags (tags_to_json tags) = some tags := by
  cases tags with
  | nil => decide
  | cons t ts =>
    have hb : tags_to_json (t :: ts) =
        ⟨'[' :: (List.intercalate [','] ((t :: ts).map encode_string) ++ [']'])⟩ := rfl
    rw [hb, parse_tags_mk_bracket]
    obtain ⟨Y, hY⟩ := intercalate_encode_cons t ts
    rw [if_neg (by rw [hY]; simp)]
    have hbl := body_length (t :: ts) (by simp)
    have hlen : (t :: ts).length ≤
        (List.intercalate [','] ((t :: ts).map encode_string) ++ [']']).length := by
      simp only [List.length_append, List.length_cons, List.length_nil] at hbl ⊢
      omega
    rw [parse_items_encode (t :: ts) _ (by simp) hlen]
    simp only [List.isEmpty_nil, if_true, List.map_map]
    have hmk : ((fun l => (⟨l⟩ : String)) ∘ String.data) = id := by
      funext s; rfl
    rw [hmk, List.map_id]

/-- C1: validation returns either "valid" (`none`) or exactly the first
violated constraint in the precedence order empty title, title length,
description length, tag count, individual tag length, invalid status,
empty project, empty assignee, notes length; emptiness of
title/project/assignee is judged after trimming, while every length limit
is judged against the untrimmed value. -/
theorem validate_task_eq_first_violation (t : Task) :
    validate_task t = first_violation t := by
  unfold validate_task first_violation violation_messages
  by_cases h1 : strEmpty (rtrim t.title) = true
  · simp [h1]
  · simp only [h1, if_false, Bool.false_eq_true]
    by_cases h2 : 500 < rlen t.title
    · simp [h1, h2]
    · by_cases h3 : 10000 < rlen t.description
      · simp [h1, h2, h3]
      · by_cases h4 : 50 < t.tags.length
        · simp [h1, h2, h3, h4]
        · by_cases h5 : t.tags.any (fun tag => 100 < rlen tag) = true
          · simp [h1, h2, h3, h4, h5]
          · by_cases h6 : t.status ∈ VALID_STATUSES
            · by_cases h7 : strEmpty (rtrim t.project) = true
              · simp [h1, h2, h3, h4, h5, h6, h7]
              · by_cases h8 : strEmpty (rtrim t.assignee) = true
                · simp [h1, h2, h3, h4, h5, h6, h7, h8]
                · by_cases h9 : 2000 < rlen (t.notes.getD "")
                  · simp [h1, h2, h3, h4, h5, h6, h7, h8, h9]
                  · simp [h1, h2, h3, h4, h5, h6, h7, h8, h9]
            · simp [h1, h2, h3, h4, h5, h6]

lemma dropWhile_replicate_neg (p : Char → Bool) (n : Nat) (c : Char) (h : p c = false) :
    List.dropWhile p (List.replicate n c) = List.replicate n c := by
  cases n with
  | zero => rfl
  | succ m => rw [List.replicate_succ, List.dropWhile_cons_of_neg (by simp [h])]

lemma trimList_replicate (n : Nat) (c : Char) (h : rustWhitespace c = false) :
    trimList (List.replicate n c) = List.replicate n c := by
  unfold trimList
  rw [dropWhile_replicate_neg _ _ _ h, List.reverse_replicate,
    dropWhile_replicate_neg _ _ _ h, List.reverse_replicate]

lemma rlen_replicate (n : Nat) (c : Char) :
    rlen ⟨List.replicate n c⟩ = n * utf8Width c := by
  simp [rlen, List.map_replicate, List.sum_replicate, smul_eq_mul]

lemma data_mk (l : List Char) : (⟨l⟩ : String).data = l := rfl

lemma strEmpty_rtrim_replicate (n : Nat) (c : Char) (h : rustWhitespace c = false) :
    strEmpty (rtrim ⟨List.replicate (n + 1) c⟩) = false := by
  unfold strEmpty rtrim
  rw [data_mk, data_mk, trimList_replicate _ _ h, List.replicate_succ]
  simp

theorem validate_limits_utf8_bytes :
    ((⟨List.replicate 251 'é'⟩ : String).data.length ≤ 500 ∧
      rlen ⟨List.replicate 251 'é'⟩ = 502 ∧
      validate_task { demo_task with title := ⟨List.replicate 251 'é'⟩ } =
        some "title must be at most 500 characters") ∧
    ((⟨List.replicate 5001 'é'⟩ : String).data.length ≤ 10000 ∧
      validate_task { demo_task with description := ⟨List.replicate 5001 'é'⟩ } =
        some "description must be at most 10000 characters") ∧
    ((⟨List.replicate 51 'é'⟩ : String).data.length ≤ 100 ∧
      validate_task { demo_task with tags := [⟨List.replicate 51 'é'⟩] } =
        some "each tag must be at most 100 characters") ∧
    ((⟨List.replicate 1001 'é'⟩ : String).data.length ≤ 2000 ∧
      validate_task { demo_task with notes := some ⟨List.replicate 1001 'é'⟩ } =
        some "notes must be at most 2000 characters") := by
  have hws : rustWhitespace 'é' = false := by decide
  have hw : utf8Width 'é' = 2 := by decide
  have hlen : ∀ (n : Nat), (⟨List.replicate n 'é'⟩ : String).data.length = n := by
    intro n; rw [data_mk, List.length_replicate]
  refine ⟨⟨by rw [hlen]; norm_num, ?_, ?_⟩, ⟨by rw [hlen]; norm_num, ?_⟩,
    ⟨by rw [hlen]; norm_num, ?_⟩, ⟨by rw [hlen]; norm_num, ?_⟩⟩
  · rw [rlen_replicate, hw]
  · unfold validate_task
    rw [if_neg, if_pos]
    · rw [rlen_replicate, hw]; norm_num
    · rw [strEmpty_rtrim_replicate 250 _ hws]; simp
  · unfold validate_task
    rw [if_neg (by decide), if_neg (by decide), if_pos]
    rw [rlen_replicate, hw]; norm_num
  · unfold validate_task
    rw [if_neg (by decide), if_neg (by decide), if_neg (by decide), if_neg (by decide), if_pos]
    simp only [List.any_cons, List.any_nil, Bool.or_false]
    rw [rlen_replicate, hw]
    norm_num
  · unfold validate_task
    rw [if_neg (by decide), if_neg (by decide), if_neg (by decide), if_neg (by decide),
      if_neg (by decide), if_neg (by decide), if_neg (by decide), if_neg (by decide), if_pos]
    simp only [Option.getD_some]
    rw [rlen_replicate, hw]
    norm_num

theorem into_task_empty_tags (r : TaskRow) (h : r.tags = "") :
    r.into_task = some
      { id := r.id, title := r.title, description := r.description, tags := [],
        deadline := r.deadline, project := r.project, assignee := r.assignee,
        status := r.status, in_sprint := r.in_sprint != 0,
        notes := r.notes.filter (fun s => !(strEmpty s)) } := by
  unfold TaskRow.into_task
  rw [h]
  simp [strEmpty]

theorem into_task_empty_tags_witness :
    ({ id := 7, title := "legacy", description := "", tags := "", deadline := none,
       project := "General", assignee := "Unassigned", status := "todo", in_sprint := 1,
       notes := some "" } : TaskRow).into_task = some
      { id := 7, title := "legacy", description := "", tags := [], deadline := none,
        project := "General", assignee := "Unassigned", status := "todo", in_sprint := true,
        notes := none } := by
  rw [into_task_empty_tags _ rfl]
  decide

lemma create_task_created (st : Store) (t : Task) (st2 : Store) (resp : Task)
    (h : create_task st t = (st2, Resp.created resp)) :
    validate_task (force_create_fields t) = none ∧
    resp = { (force_create_fields t) with id := st.nextId } ∧
    st2 = { st with
            nextId := st.nextId + 1
            rows := st.rows ++ [create_row st (force_create_fields t)] } := by
  simp only [create_task] at h
  cases hv : validate_task (force_create_fields t) with
  | some msg => rw [hv] at h; simp at h
  | none =>
    rw [hv] at h
    by_cases hp : project_exists st (force_create_fields t).project
    · by_cases ha : assignee_exists st (force_create_fields t).assignee
      · simp [hp, ha, Prod.ext_iff] at h
        exact ⟨rfl, h.2.symm, h.1.symm⟩
      · simp [hp, ha] at h
    · simp [hp] at h

@[simp] lemma force_create_fields_id (t : Task) : (force_create_fields t).id = 0 := by
  simp [force_create_fields, apply_ite]

@[simp] lemma force_create_fields_title (t : Task) : (force_create_fields t).title = t.title := by
  simp [force_create_fields, apply_ite]

@[simp] lemma force_create_fields_description (t : Task) :
    (force_create_fields t).description = t.description := by
  simp [force_create_fields, apply_ite]

@[simp] lemma force_create_fields_tags (t : Task) : (force_create_fields t).tags = t.tags := by
  simp [force_create_fields, apply_ite]

@[simp] lemma force_create_fields_deadline (t : Task) :
    (force_create_fields t).deadline = t.deadline := by
  simp [force_create_fields, apply_ite]

@[simp] lemma force_create_fields_project (t : Task) :
    (force_create_fields t).project = t.project := by
  simp [force_create_fields, apply_ite]

@[simp] lemma force_create_fields_assignee (t : Task) :
    (force_create_fields t).assignee = t.assignee := by
  simp [force_create_fields, apply_ite]

@[simp] lemma force_create_fields_in_sprint (t : Task) :
    (force_create_fields t).in_sprint = false := by
  simp [force_create_fields, apply_ite]

@[simp] lemma force_create_fields_notes (t : Task) : (force_create_fields t).notes = t.notes := by
  simp [force_create_fields, apply_ite]

lemma valid_status_nonempty (s : String) (h : VALID_STATUSES.contains s = true) :
    strEmpty s = false := by
  have hm : s = "todo" ∨ s = "in_progress" ∨ s = "done" ∨ s = "blocked" := by
    simpa [VALID_STATUSES] using h
  rcases hm with rfl | rfl | rfl | rfl <;> decide
  
lemma strEmpty_tags_to_json (l : List String) : strEmpty (tags_to_json l) = false := rfl

/-- Decoding the row `create_task` stores yields the stored
representation: tags decoded from the JSON text and notes normalized. -/
lemma into_task_create_row (st : Store) (t3 : Task) :
    TaskRow.into_task (create_row st t3) = some
      { id := st.nextId, title := t3.title, description := t3.description,
        tags := t3.tags, deadline := t3.deadline, project := t3.project,
        assignee := t3.assignee, status := t3.status, in_sprint := false,
        notes := normalize_notes t3.notes } := by
  unfold TaskRow.into_task create_row
  simp only [strEmpty_tags_to_json, if_false, Bool.false_eq_true, parse_tags_tags_to_json]
  simp [normalize_notes, Option.filter, strEmpty]
  by_cases hn : (rtrim (t3.notes.getD "")).data = []
  · simp [hn]
  · simp [hn]

/-- C2: on every persisted create request the row identity is
store-assigned (the next identity, independent of the client-supplied
id), the stored and returned status is `todo` whenever the supplied
status is not in the fixed enumeration (in particular when it is the
empty default for an absent field), and the stored `in_sprint` column is
0 and the returned flag false regardless of client input. -/
theorem create_task_forces_store_fields (st : Store) (t : Task) (st2 : Store) (resp : Task)
    (h : create_task st t = (st2, Resp.created resp)) :
    ∃ row : TaskRow,
      st2.rows = st.rows ++ [row] ∧
      row.id = st.nextId ∧ resp.id = st.nextId ∧
      row.in_sprint = 0 ∧ resp.in_sprint = false ∧
      (VALID_STATUSES.contains t.status = false → row.status = "todo" ∧ resp.status = "todo") ∧
      (VALID_STATUSES.contains t.status = true → row.status = t.status ∧ resp.status = t.status) := by
  obtain ⟨hv, hresp, hst⟩ := create_task_created st t st2 resp h
  refine ⟨create_row st (force_create_fields t), by rw [hst], rfl, by rw [hresp], rfl,
    by rw [hresp]; rfl, ?_, ?_⟩
  · intro hc
    have hc2 : t.status ∉ VALID_STATUSES := by simpa using hc
    have hs : (force_create_fields t).status = "todo" := by
      simp [force_create_fields, apply_ite, hc2]
    exact ⟨hs, by rw [hresp]; exact hs⟩
  · intro hc
    have hc2 : t.status ∈ VALID_STATUSES := by simpa using hc
    have hse := valid_status_nonempty t.status hc
    have hs : (force_create_fields t).status = t.status := by
      simp [force_create_fields, apply_ite, hc2, hse]
    exact ⟨hs, by rw [hresp]; exact hs⟩




theorem create_task_forces_store_fields_witness :
    ∃ row : TaskRow,
      (create_task demo_store c2_input).1.rows = demo_store.rows ++ [row] ∧
      row.id = demo_store.nextId ∧ c2_resp.id = demo_store.nextId ∧
      row.in_sprint = 0 ∧ c2_resp.in_sprint = false ∧
      (VALID_STATUSES.contains c2_input.status = false → row.status = "todo" ∧ c2_resp.status = "todo") ∧
      (VALID_STATUSES.contains c2_input.status = true → row.status = c2_input.status ∧ c2_resp.status = c2_input.status) :=
  create_task_forces_store_fields demo_store c2_input _ c2_resp (by decide)

/-- C5 (amended): on every persisted create request the appended row
decodes to exactly the response task except possibly the notes field:
the store normalizes notes (trim, empty becomes absent) while the
response echoes the client-supplied notes value. -/
theorem create_task_response_matches_store_except_notes
    (st : Store) (t : Task) (st2 : Store) (resp : Task)
    (h : create_task st t = (st2, Resp.created resp)) :
    ∃ (row : TaskRow) (listed : Task),
      st2.rows = st.rows ++ [row] ∧ row.id = resp.id ∧
      TaskRow.into_task row = some listed ∧
      listed = { resp with notes := normalize_notes t.notes } := by
  obtain ⟨hv, hresp, hst⟩ := create_task_created st t st2 resp h
  refine ⟨create_row st (force_create_fields t),
    { resp with notes := normalize_notes t.notes }, by rw [hst], by rw [hresp]; rfl, ?_, rfl⟩
  rw [into_task_create_row, hresp]
  simp


/-- Counterexample to C5 as stated: for a create request with
whitespace-only notes the response body is not the stored
representation - the response echoes the notes value `" "` while the
stored row lists back with the notes field absent. -/
theorem create_task_response_not_stored_counterexample :
    (create_task demo_store c5_input).2 = Resp.created { c5_input with id := 1 } ∧
    ({ c5_input with id := 1 } : Task).notes = some " " ∧
    (create_task demo_store c5_input).1.rows.map TaskRow.into_task =
      [some { c5_input with id := 1, notes := none }] ∧
    ({ c5_input with id := 1 } : Task) ≠ { c5_input with id := 1, notes := none } := by
  refine ⟨by decide, by decide, ?_, by decide⟩
  decide

theorem create_task_response_matches_store_except_notes_witness :
    ∃ (row : TaskRow) (listed : Task),
      (create_task demo_store c5_input).1.rows = demo_store.rows ++ [row] ∧
      row.id = ({ c5_input with id := 1 } : Task).id ∧
      TaskRow.into_task row = some listed ∧
      listed = { ({ c5_input with id := 1 } : Task) with
                  notes := normalize_notes c5_input.notes } :=
  create_task_response_matches_store_except_notes demo_store c5_input _ _ (by decide)

/-- C8: the tags round-trip is lossless - decoding the JSON encoding of
any tag list returns the same list, and on every persisted create
request the appended row both stores the encoded client tags and decodes
back to a task carrying exactly the client's tag list in order, which is
also the tag list in the response body. -/
theorem created_tags_roundtrip :
    (∀ tags : List String, parse_tags (tags_to_json tags) = some tags) ∧
    ∀ (st : Store) (t : Task) (st2 : Store) (resp : Task),
      create_task st t = (st2, Resp.created resp) →
      ∃ (row : TaskRow) (listed : Task),
        st2.rows = st.rows ++ [row] ∧ row.id = resp.id ∧
        row.tags = tags_to_json t.tags ∧
        TaskRow.into_task row = some listed ∧
        listed.tags = t.tags ∧ resp.tags = t.tags := by
  refine ⟨parse_tags_tags_to_json, ?_⟩
  intro st t st2 resp h
  obtain ⟨hv, hresp, hst⟩ := create_task_created st t st2 resp h
  refine ⟨create_row st (force_create_fields t), _, by rw [hst], by rw [hresp]; rfl,
    by simp [create_row], into_task_create_row st (force_create_fields t), by simp, by rw [hresp]; simp⟩


theorem created_tags_roundtrip_witness :
    parse_tags (tags_to_json ["a", "b"]) = some ["a", "b"] ∧
    (∃ (row : TaskRow) (listed : Task),
      (create_task demo_store c8_input).1.rows = demo_store.rows ++ [row] ∧
      row.id = ({ c8_input with id := 1 } : Task).id ∧
      row.tags = tags_to_json c8_input.tags ∧
      TaskRow.into_task row = some listed ∧
      listed.tags = c8_input.tags ∧ ({ c8_input with id := 1 } : Task).tags = c8_input.tags) :=
  ⟨created_tags_roundtrip.1 ["a", "b"],
   created_tags_roundtrip.2 demo_store c8_input _ _ (by decide)⟩

lemma set_status_id (id : Int) (s : String) (r : TaskRow) : (set_status id s r).id = r.id := by
  unfold set_status; split <;> rfl

lemma into_task_status (r : TaskRow) (t : Task) (h : r.into_task = some t) :
    t.status = r.status := by
  unfold TaskRow.into_task at h
  cases hm : (if strEmpty r.tags then some [] else parse_tags r.tags) with
  | none => rw [hm] at h; cases h
  | some tags => rw [hm] at h; injection h with h2; rw [← h2]

lemma map_set_status_of_none (id : Int) (s : String) :
    ∀ (l : List TaskRow), (∀ r ∈ l, ¬ r.id = id) → l.map (set_status id s) = l
  | [], _ => rfl
  | a :: tl, h => by
    have ha : set_status id s a = a := by
      unfold set_status
      rw [if_neg]
      simpa using h a (List.mem_cons_self a tl)
    rw [List.map_cons, ha,
      map_set_status_of_none id s tl (fun r hr => h r (List.mem_cons_of_mem a hr))]

/-- C3: a status outside the fixed enumeration is rejected as `invalid
status` with the store untouched; an in-enumeration status rewrites
exactly the row with the given id, reports `task not found` when no row
has that id (leaving the store unchanged), and otherwise returns the
refreshed decoded row, whose status is the requested one. -/
theorem update_task_status_spec (st : Store) (id : Int) (s : String) :
    (VALID_STATUSES.contains s = false →
      update_task_status st id s = (st, Resp.badRequest "invalid status")) ∧
    (VALID_STATUSES.contains s = true →
      ((update_task_status st id s).1.rows = st.rows.map (set_status id s)) ∧
      ((∀ r ∈ st.rows, ¬ r.id = id) →
        update_task_status st id s = (st, Resp.notFound "task not found")) ∧
      (∀ (r : TaskRow) (t : Task),
        st.rows.find? (fun r2 => r2.id == id) = some r →
        TaskRow.into_task { r with status := s } = some t →
        update_task_status st id s =
          ({ st with rows := st.rows.map (set_status id s) }, Resp.ok t) ∧ t.status = s)) := by
  constructor
  · intro hc
    simp only [update_task_status, hc, Bool.not_false, if_true]
  · intro hc
    refine ⟨?_, ?_, ?_⟩
    · simp only [update_task_status, hc, Bool.not_true, Bool.false_eq_true, if_false]
      split
      · rfl
      · split
        · rfl
        · split <;> rfl
    · intro hnone
      have hcount : st.rows.countP (fun r => r.id == id) = 0 := by
        rw [List.countP_eq_zero]
        intro r hr
        simpa using hnone r hr
      have hmap := map_set_status_of_none id s st.rows hnone
      simp only [update_task_status, hc, Bool.not_true, Bool.false_eq_true, if_false, hcount,
        hmap]
      rfl
    · intro r t hfind hinto
      have hp : (r.id == id) = true := by simpa using List.find?_some hfind
      have hmem : r ∈ st.rows := List.mem_of_find?_eq_some hfind
      have hcount : (st.rows.countP (fun r2 => r2.id == id) == 0) = false := by
        have : 0 < st.rows.countP (fun r2 => r2.id == id) := by
          rw [List.countP_pos_iff]
          exact ⟨r, hmem, hp⟩
        simp only [beq_eq_false_iff_ne, ne_eq]
        omega
      have hcomp : ((fun r2 : TaskRow => r2.id == id) ∘ set_status id s) =
          (fun r2 : TaskRow => r2.id == id) := by
        funext r2
        simp [Function.comp, set_status_id]
      have hfind2 : (st.rows.map (set_status id s)).find? (fun r2 => r2.id == id) =
          some { r with status := s } := by
        rw [List.find?_map, hcomp, hfind]
        simp [set_status, hp]
      refine ⟨?_, into_task_status _ _ hinto⟩
      simp only [update_task_status, hc, Bool.not_true, Bool.false_eq_true, if_false, hcount,
        hfind2, hinto]




theorem update_task_status_spec_witness :
    update_task_status c3_store 1 "bogus" = (c3_store, Resp.badRequest "invalid status") ∧
    update_task_status c3_store 99 "done" = (c3_store, Resp.notFound "task not found") ∧
    (update_task_status c3_store 1 "done" =
      ({ c3_store with rows := c3_store.rows.map (set_status 1 "done") }, Resp.ok c3_done_task) ∧
      c3_done_task.status = "done") := by
  refine ⟨(update_task_status_spec c3_store 1 "bogus").1 (by decide), ?_, ?_⟩
  · exact ((update_task_status_spec c3_store 99 "done").2 (by decide)).2.1 (by decide)
  · exact ((update_task_status_spec c3_store 1 "done").2 (by decide)).2.2
      c3_row c3_done_task (by decide) (by decide)

lemma accepted_items_cons (ps asg : List String) (item : JVal) (rest : List JVal) :
    accepted_items ps asg (item :: rest) =
      (if (validate_task (materialize_item ps asg item)).isNone
       then materialize_item ps asg item :: accepted_items ps asg rest
       else accepted_items ps asg rest) := by
  simp only [accepted_items, List.map_cons, List.filter_cons]

/-- C6: the AI-generation loop persists and returns exactly the items
that pass the same validation as manual creation (each first
materialized with the documented defaults and fallbacks), silently
dropping the rest: the response is the accepted list with consecutive
store-assigned identities, the rows grow by exactly those tasks' rows,
and the lookup tables are untouched. -/
theorem generate_from_items_spec (st : Store) (items : List JVal) :
    generate_from_items st items =
      ({ st with
          nextId := st.nextId + (accepted_items st.projects st.assignees items).length
          rows := st.rows ++
            (assign_ids st.nextId (accepted_items st.projects st.assignees items)).map gen_row },
       assign_ids st.nextId (accepted_items st.projects st.assignees items)) := by
  induction items generalizing st with
  | nil =>
    simp [generate_from_items, accepted_items, assign_ids]
  | cons item rest ih =>
    by_cases hv : (validate_task (materialize_item st.projects st.assignees item)).isNone = true
    · simp only [generate_from_items, hv, if_true]
      rw [ih, accepted_items_cons]
      simp only [hv, if_true, assign_ids, List.map_cons]
      refine Prod.ext ?_ rfl
      show ({ st with
              nextId := st.nextId + 1 +
                (accepted_items st.projects st.assignees rest).length
              rows := (st.rows ++
                [gen_row { materialize_item st.projects st.assignees item with id := st.nextId }]) ++
                (assign_ids (st.nextId + 1) (accepted_items st.projects st.assignees rest)).map gen_row } : Store) =
        { st with
            nextId := st.nextId +
              ((materialize_item st.projects st.assignees item ::
                accepted_items st.projects st.assignees rest).length : Nat)
            rows := st.rows ++
              (gen_row { materialize_item st.projects st.assignees item with id := st.nextId } ::
                (assign_ids (st.nextId + 1) (accepted_items st.projects st.assignees rest)).map gen_row) }
      simp only [Store.mk.injEq, List.length_cons, List.append_assoc, List.cons_append,
        List.nil_append, and_true]
      push_cast
      omega
    · have hvf : (validate_task (materialize_item st.projects st.assignees item)).isNone = false := by
        cases hb : (validate_task (materialize_item st.projects st.assignees item)).isNone
        · rfl
        · exact absurd hb hv
      simp only [generate_from_items, hvf, Bool.false_eq_true, if_false]
      rw [ih, accepted_items_cons]
      simp only [hvf, Bool.false_eq_true, if_false]

/-- C4 (amended): over http, the CORS policy accepts exactly the origins
whose host part starts with localhost, 127.0.0.1, 172. or 192.168.;
over https it accepts only the 172. and 192.168. prefixes - https
localhost/loopback origins are rejected. -/
theorem cors_allowed_scheme_host (host : List Char) :
    cors_allowed ("http://".data ++ host) =
      (lstarts host "localhost".data || lstarts host "127.0.0.1".data ||
       lstarts host "172.".data || lstarts host "192.168.".data) ∧
    cors_allowed ("https://".data ++ host) =
      (lstarts host "172.".data || lstarts host "192.168.".data) := by
  constructor
  · have h1 : cors_allowed ("http://".data ++ host) =
        ((host == "localhost:3000".data) || (host == "127.0.0.1:3000".data) ||
         lstarts host "localhost".data || lstarts host "127.0.0.1".data ||
         lstarts host "172.".data || false || lstarts host "192.168.".data || false) := rfl
    rw [h1]
    simp only [Bool.or_false]
    by_cases e1 : host = "localhost:3000".data
    · subst e1; decide
    · by_cases e2 : host = "127.0.0.1:3000".data
      · subst e2; decide
      · rw [beq_eq_false_iff_ne.mpr e1, beq_eq_false_iff_ne.mpr e2]
        simp only [Bool.false_or]
  · have h2 : cors_allowed ("https://".data ++ host) =
        (false || false || false || false || false || lstarts host "172.".data ||
         false || lstarts host "192.168.".data) := rfl
    rw [h2]
    simp only [Bool.false_or, Bool.or_false]

/-- Counterexample to C4 as stated: the claim accepts every localhost
origin over either http or https, but the policy in `main` rejects
`https://localhost:3000`. -/
theorem cors_claim_counterexample :
    claim_cors_allowed "https://localhost:3000".data = true ∧
    cors_allowed "https://localhost:3000".data = false := by
  decide

lemma isPrefixOf_cons_cons (a b : Char) (as bs : List Char) :
    List.isPrefixOf (a :: as) (b :: bs) = ((a == b) && as.isPrefixOf bs) := rfl

lemma isPrefixOf_append_self (a b : List Char) : a.isPrefixOf (a ++ b) = true := by
  rw [List.isPrefixOf_iff_prefix]
  exact List.prefix_append a b

lemma findSubAux_eq_some (pat : List Char) :
    ∀ (n : Nat) (l : List Char) (i : Nat),
      (∀ k, k < n → pat.isPrefixOf (l.drop k) = false) →
      pat.isPrefixOf (l.drop n) = true →
      findSubAux pat l i = some (i + n)
  | 0, l, i, _, hn => by
    rw [List.drop_zero] at hn
    cases l with
    | nil => simp [findSubAux, hn]
    | cons c tl => simp [findSubAux, hn]
  | n + 1, l, i, hk, hn => by
    have h0 : pat.isPrefixOf l = false := by
      have := hk 0 (Nat.succ_pos n)
      rwa [List.drop_zero] at this
    cases l with
    | nil =>
      rw [List.drop_nil] at hn
      rw [h0] at hn
      cases hn
    | cons c tl =>
      rw [show findSubAux pat (c :: tl) i =
        (if pat.isPrefixOf (c :: tl) then some i else findSubAux pat tl (i + 1)) from rfl]
      rw [h0]
      simp only [Bool.false_eq_true, if_false]
      have hres := findSubAux_eq_some pat n tl (i + 1)
        (fun k hklt => by
          have := hk (k + 1) (Nat.succ_lt_succ hklt)
          rwa [List.drop_succ_cons] at this)
        (by rwa [List.drop_succ_cons] at hn)
      rw [hres]
      congr 1
      omega

lemma findSub_eq_some (l pat : List Char) (n : Nat)
    (hk : ∀ k, k < n → pat.isPrefixOf (l.drop k) = false)
    (hn : pat.isPrefixOf (l.drop n) = true) :
    findSub l pat = some n := by
  have := findSubAux_eq_some pat n l 0 hk hn
  rwa [Nat.zero_add] at this

lemma findSubAux_none_imp (pat : List Char) :
    ∀ (l : List Char) (i : Nat), findSubAux pat l i = none →
      ∀ k, pat.isPrefixOf (l.drop k) = false
  | [], i, h, k => by
    rw [List.drop_nil]
    cases hp : pat.isPrefixOf ([] : List Char) with
    | false => rfl
    | true => simp [findSubAux, hp] at h
  | c :: tl, i, h, k => by
    have hsplit : pat.isPrefixOf (c :: tl) = false ∧ findSubAux pat tl (i + 1) = none := by
      by_cases hp : pat.isPrefixOf (c :: tl) = true
      · rw [show findSubAux pat (c :: tl) i =
          (if pat.isPrefixOf (c :: tl) then some i else findSubAux pat tl (i + 1)) from rfl,
          hp] at h
        simp at h
      · refine ⟨?_, ?_⟩
        · cases hb : pat.isPrefixOf (c :: tl) with
          | false => rfl
          | true => exact absurd hb hp
        rw [show findSubAux pat (c :: tl) i =
          (if pat.isPrefixOf (c :: tl) then some i else findSubAux pat tl (i + 1)) from rfl] at h
        rwa [if_neg hp] at h
    cases k with
    | zero => rw [List.drop_zero]; exact hsplit.1
    | succ m =>
      rw [List.drop_succ_cons]
      exact findSubAux_none_imp pat tl (i + 1) hsplit.2 m

lemma findSub_none_imp (l pat : List Char) (h : findSub l pat = none) :
    ∀ k, pat.isPrefixOf (l.drop k) = false :=
  findSubAux_none_imp pat l 0 h

lemma findSubAux_eq_none (pat : List Char) :
    ∀ (l : List Char) (i : Nat),
      (∀ k, pat.isPrefixOf (l.drop k) = false) → findSubAux pat l i = none
  | [], i, h => by
    have h0 := h 0
    rw [List.drop_zero] at h0
    simp [findSubAux, h0]
  | c :: tl, i, h => by
    have h0 := h 0
    rw [List.drop_zero] at h0
    rw [show findSubAux pat (c :: tl) i =
      (if pat.isPrefixOf (c :: tl) then some i else findSubAux pat tl (i + 1)) from rfl, h0]
    simp only [Bool.false_eq_true, if_false]
    exact findSubAux_eq_none pat tl (i + 1)
      (fun k => by have := h (k + 1); rwa [List.drop_succ_cons] at this)

lemma findSub_none_of (l pat : List Char)
    (h : ∀ k, pat.isPrefixOf (l.drop k) = false) : findSub l pat = none :=
  findSubAux_eq_none pat l 0 h

lemma fence_prefix_of_jsonFence (l : List Char) (h : jsonFenceTok.isPrefixOf l = true) :
    fenceTok.isPrefixOf l = true := by
  rw [List.isPrefixOf_iff_prefix] at h ⊢
  exact List.IsPrefix.trans ⟨['j', 's', 'o', 'n'], rfl⟩ h

lemma head_not_mem_prefix_false (p : Char) (ps xs ys : List Char) (k : Nat)
    (hk : k < xs.length) (hmem : p ∉ xs) :
    List.isPrefixOf (p :: ps) (xs.drop k ++ ys) = false := by
  rw [List.drop_eq_getElem_cons hk, List.cons_append, isPrefixOf_cons_cons]
  have hne : ¬ p = xs[k] := fun h => hmem (h ▸ List.getElem_mem hk)
  simp [hne]

/-- Case analysis lemma for C7: with no fence token anywhere in the
trimmed input, extraction returns the trimmed text exactly when it
starts with a bracket. -/
lemma extract_no_fence (text : String)
    (h : findSub (trimList text.data) fenceTok = none) :
    extract_json_from_response text =
      (if (trimList text.data).head? = some '[' then some ⟨trimList text.data⟩ else none) := by
  have hjson : findSub (trimList text.data) jsonFenceTok = none := by
    apply findSub_none_of
    intro k
    cases hb : jsonFenceTok.isPrefixOf ((trimList text.data).drop k) with
    | false => rfl
    | true =>
      have := fence_prefix_of_jsonFence _ hb
      rw [findSub_none_imp _ _ h k] at this
      cases this
  simp only [extract_json_from_response, plain_branch, bracket_branch, hjson, h]

lemma newline_findSub_jsonFence (rest : List Char) :
    findSub (jsonFenceTok ++ '\n' :: rest) ['\n'] = some 7 := by
  have hx : jsonFenceTok ++ '\n' :: rest =
      '`' :: '`' :: '`' :: 'j' :: 's' :: 'o' :: 'n' :: '\n' :: rest := rfl
  rw [hx]
  apply findSub_eq_some
  · intro k hk
    interval_cases k <;> simp [List.isPrefixOf]
  · simp [List.isPrefixOf]

lemma drop_eight_jsonFence (rest : List Char) :
    (jsonFenceTok ++ '\n' :: rest).drop 8 = rest := rfl

lemma findSub_closing_fence (inner post : List Char) (hinner : '`' ∉ inner) :
    findSub (inner ++ (fenceTok ++ post)) fenceTok = some inner.length := by
  apply findSub_eq_some
  · intro k hk
    rw [List.drop_append_of_le_length (Nat.le_of_lt hk)]
    exact head_not_mem_prefix_false '`' ['`', '`'] inner (fenceTok ++ post) k hk hinner
  · rw [List.drop_left]
    exact isPrefixOf_append_self fenceTok post

/-- Case analysis lemma for C7: an input whose trimmed form carries a
json-tagged fence (with no earlier json-fence occurrence) followed on a
later line by a closing fence extracts exactly the trimmed interior. -/
lemma extract_json_fence (text : String) (pre inner post : List Char)
    (heq : trimList text.data = pre ++ (jsonFenceTok ++ '\n' :: (inner ++ (fenceTok ++ post))))
    (hpre : ∀ i, i < pre.length →
      jsonFenceTok.isPrefixOf
        ((pre ++ (jsonFenceTok ++ '\n' :: (inner ++ (fenceTok ++ post)))).drop i) = false)
    (hinner : '`' ∉ inner) :
    extract_json_from_response text = some ⟨trimList inner⟩ := by
  have h1 : findSub (trimList text.data) jsonFenceTok = some pre.length := by
    rw [heq]
    apply findSub_eq_some _ _ _ hpre
    rw [List.drop_left]
    exact isPrefixOf_append_self jsonFenceTok _
  have h2 : findSub ((trimList text.data).drop pre.length) ['\n'] = some 7 := by
    rw [heq, List.drop_left]
    exact newline_findSub_jsonFence _
  have h3 : (trimList text.data).drop (pre.length + 7 + 1) = inner ++ (fenceTok ++ post) := by
    rw [heq, Nat.add_assoc]
    rw [List.drop_append]
    exact drop_eight_jsonFence _
  have h4 : findSub ((trimList text.data).drop (pre.length + 7 + 1)) fenceTok =
      some inner.length := by
    rw [h3]
    exact findSub_closing_fence inner post hinner
  have h5 : ((trimList text.data).drop (pre.length + 7 + 1)).take inner.length = inner := by
    rw [h3]
    exact List.take_left inner (fenceTok ++ post)
  unfold extract_json_from_response
  simp only [h1, h2, h4, h5]

lemma newline_findSub_plainFence (lang rest : List Char)
    (hlang : '\n' ∉ lang) :
    findSub (fenceTok ++ (lang ++ '\n' :: rest)) ['\n'] = some (3 + lang.length) := by
  apply findSub_eq_some
  · intro k hk
    rcases Nat.lt_or_ge k 3 with h3 | h3
    · have hx : fenceTok ++ (lang ++ '\n' :: rest) =
          '`' :: '`' :: '`' :: (lang ++ '\n' :: rest) := rfl
      rw [hx]
      interval_cases k <;> simp [List.isPrefixOf]
    · obtain ⟨m, rfl⟩ : ∃ m, k = 3 + m := ⟨k - 3, by omega⟩
      have hm : m < lang.length := by omega
      rw [show (3 : Nat) + m = fenceTok.length + m from rfl, List.drop_append]
      rw [List.drop_append_of_le_length (Nat.le_of_lt hm)]
      exact head_not_mem_prefix_false '\n' [] lang ('\n' :: rest) m hm hlang
  · rw [show (3 : Nat) + lang.length = fenceTok.length + lang.length from rfl,
      List.drop_append, List.drop_left]
    simp [List.isPrefixOf]

/-- Case analysis lemma for C7: with no json-tagged fence anywhere, an
input whose trimmed form carries a plain fence (with no earlier fence
occurrence) closed after its opening line extracts exactly the trimmed
interior. -/
lemma extract_plain_fence (text : String) (pre lang inner post : List Char)
    (heq : trimList text.data = pre ++ (fenceTok ++ (lang ++ '\n' :: (inner ++ (fenceTok ++ post)))))
    (hjson : findSub (trimList text.data) jsonFenceTok = none)
    (hpre : ∀ i, i < pre.length →
      fenceTok.isPrefixOf
        ((pre ++ (fenceTok ++ (lang ++ '\n' :: (inner ++ (fenceTok ++ post))))).drop i) = false)
    (hlang : '\n' ∉ lang) (hinner : '`' ∉ inner) :
    extract_json_from_response text = some ⟨trimList inner⟩ := by
  have h1 : findSub (trimList text.data) fenceTok = some pre.length := by
    rw [heq]
    apply findSub_eq_some _ _ _ hpre
    rw [List.drop_left]
    exact isPrefixOf_append_self fenceTok _
  have h2 : findSub ((trimList text.data).drop pre.length) ['\n'] = some (3 + lang.length) := by
    rw [heq, List.drop_left]
    exact newline_findSub_plainFence lang _ hlang
  have h3 : (trimList text.data).drop (pre.length + (3 + lang.length) + 1) =
      inner ++ (fenceTok ++ post) := by
    rw [heq]
    rw [show pre.length + (3 + lang.length) + 1 =
      pre.length + (fenceTok.length + (lang.length + 1)) from by
        simp [fenceTok]; omega]
    rw [List.drop_append, List.drop_append, List.drop_append, List.drop_succ_cons,
      List.drop_zero]
  have h4 : findSub ((trimList text.data).drop (pre.length + (3 + lang.length) + 1)) fenceTok =
      some inner.length := by
    rw [h3]
    exact findSub_closing_fence inner post hinner
  have h5 : ((trimList text.data).drop (pre.length + (3 + lang.length) + 1)).take inner.length =
      inner := by
    rw [h3]
    exact List.take_left inner (fenceTok ++ post)
  unfold extract_json_from_response plain_branch
  simp only [hjson, h1, h2, h4, h5]

/-- C7: extraction from an AI reply prefers the first json-tagged fenced
block and returns its trimmed interior; failing that it takes the first
plain fenced block's trimmed interior; with no fence token at all it
returns the trimmed text exactly when that text begins with a bracket,
and otherwise nothing. -/
theorem extract_json_from_response_spec :
    (∀ text : String,
      findSub (trimList text.data) fenceTok = none →
      extract_json_from_response text =
        (if (trimList text.data).head? = some '[' then some ⟨trimList text.data⟩ else none)) ∧
    (∀ (text : String) (pre inner post : List Char),
      trimList text.data = pre ++ (jsonFenceTok ++ '\n' :: (inner ++ (fenceTok ++ post))) →
      (∀ i, i < pre.length →
        jsonFenceTok.isPrefixOf
          ((pre ++ (jsonFenceTok ++ '\n' :: (inner ++ (fenceTok ++ post)))).drop i) = false) →
      '`' ∉ inner →
      extract_json_from_response text = some ⟨trimList inner⟩) ∧
    (∀ (text : String) (pre lang inner post : List Char),
      trimList text.data =
        pre ++ (fenceTok ++ (lang ++ '\n' :: (inner ++ (fenceTok ++ post)))) →
      findSub (trimList text.data) jsonFenceTok = none →
      (∀ i, i < pre.length →
        fenceTok.isPrefixOf
          ((pre ++ (fenceTok ++ (lang ++ '\n' :: (inner ++ (fenceTok ++ post))))).drop i) = false) →
      '\n' ∉ lang → '`' ∉ inner →
      extract_json_from_response text = some ⟨trimList inner⟩) :=
  ⟨extract_no_fence, extract_json_fence, extract_plain_fence⟩

theorem extract_json_from_response_spec_witness :
    extract_json_from_response "[1, 2]" = some "[1, 2]" ∧
    extract_json_from_response "x ```json\n[2]\n``` y" = some "[2]" ∧
    extract_json_from_response "a ```rust\n[3]``` b" = some "[3]" := by
  refine ⟨?_, ?_, ?_⟩
  · exact (extract_json_from_response_spec.1 "[1, 2]" (by decide)).trans (by decide)
  · exact (extract_json_from_response_spec.2.1 "x ```json\n[2]\n``` y"
      "x ".data "[2]\n".data " y".data (by decide) (by decide) (by decide)).trans (by decide)
  · exact (extract_json_from_response_spec.2.2 "a ```rust\n[3]``` b"
      "a ".data "rust".data "[3]".data " b".data
      (by decide) (by decide) (by decide) (by decide) (by decide)).trans (by decide)

end TaskManager
